import Mathlib

/-!
Verification development for the chain-details enrichment script
(src/src/data/fillChainDetails.py).

The script is embedded shallowly: JSON documents become the inductive type
JVal (objects are association lists in insertion order, numbers are modelled
as integers), Python exceptions become an error type PyErr carried in Except,
and every HTTP interaction is an oracle function passed in explicitly (a GET
oracle returning a Resp, a POST oracle returning an optional status code).
All definitions are executable.
-/

set_option maxRecDepth 20000

/-- Shallow embedding of a JSON value as produced by json.load / response.json.
Numbers are modelled as integers (the cache documents handled by the script
carry integer numerics); objects keep insertion order, as Python dicts do. -/
inductive JVal where
  | null
  | bool (b : Bool)
  | num (n : Int)
  | str (s : String)
  | arr (elems : List JVal)
  | obj (fields : List (String × JVal))
deriving Repr

/-- A Python dict with string keys, in insertion order. -/
abbrev JObj := List (String × JVal)

/-- Python exception kinds that the script can raise. -/
inductive PyErr where
  | keyError
  | typeError
  | attributeError
  | indexError
  | valueError
deriving Repr, DecidableEq

/-- Dictionary lookup, dict.get(k): the value at the first occurrence of the key. -/
def jget : JObj → String → Option JVal
  | [], _ => none
  | (k1, v1) :: rest, k => if k1 = k then some v1 else jget rest k

/-- Dictionary update, d[k] = v: replace the value at an existing key in place,
otherwise append the new key at the end (Python dict insertion-order semantics). -/
def jset : JObj → String → JVal → JObj
  | [], k, v => [(k, v)]
  | (k1, v1) :: rest, k, v => if k1 = k then (k1, v) :: rest else (k1, v1) :: jset rest k v

/-- Python double-star merge: the expression with details unpacked first and the
cached record second keeps the first mapping's key order, the second mapping's
values win on overlapping keys, and keys only in the second are appended. -/
def pymerge (a b : JObj) : JObj :=
  a.map (fun kv => (kv.1, (jget b kv.1).getD kv.2)) ++
    b.filter (fun kv => (jget a kv.1).isNone)

/-- Python truthiness of a JSON-derived value. -/
def truthy : JVal → Bool
  | .null => false
  | .bool b => b
  | .num n => decide (n ≠ 0)
  | .str s => decide (s ≠ "")
  | .arr xs => !xs.isEmpty
  | .obj kvs => !kvs.isEmpty

/-- Coercion used where the code calls a dict method (.get, .items) on a value:
a non-object raises AttributeError. -/
def asObjA : JVal → Except PyErr JObj
  | .obj o => Except.ok o
  | _ => Except.error .attributeError

/-- Coercion used where the code calls a str method (.lower, .startswith,
.replace) on a value: a non-string raises AttributeError. -/
def asStrA : JVal → Except PyErr String
  | .str s => Except.ok s
  | _ => Except.error .attributeError

/-- Python str.startswith, computed on the character lists. -/
def strStartsWith (s pre : String) : Bool := pre.data.isPrefixOf s.data

/-- Python str.endswith, computed on the character lists. -/
def strEndsWith (s suf : String) : Bool := suf.data.isSuffixOf s.data

/-- Python str.lower, computed character by character (the URLs and answers
the script lowercases are ASCII). -/
def strToLower (s : String) : String := String.mk (s.data.map Char.toLower)

/-- os.path.join for the URL-shaped paths the script builds: the base is glued
to the component with a single slash. -/
def osJoin (base comp : String) : String :=
  if strEndsWith base "/" then base ++ comp else base ++ "/" ++ comp

/-- One HTTP response as seen by the script: status code, parsed JSON body
(none when response.json() would fail to parse), and response.url. -/
structure Resp where
  status : Nat
  body : Option JVal
  url : String

def CONTRACTS_URL : String := "contracts.json"

def CHAIN_DETAILS_PATH : String := "chainDetails.json"

def CHAINS_URL : String :=
  "https://raw.githubusercontent.com/ethereum-lists/chains/master/_data/chains"

def ICONS_URL : String :=
  "https://raw.githubusercontent.com/ethereum-lists/chains/master/_data/icons"

def CRYPTO_ICONS_URL : String :=
  "https://raw.githubusercontent.com/spothq/cryptocurrency-icons/master/svg/color"

def TRUST_WALLET_ICONS_URL : String :=
  "https://raw.githubusercontent.com/trustwallet/assets/8ee07e9d791bec6c3ada3cfac73ddfdc4f4a40b7/blockchains/"

def DEFAULT_ICON_URL : String :=
  "https://raw.githubusercontent.com/spothq/cryptocurrency-icons/master/svg/color/generic.svg"

/-- Containment of a contiguous character subsequence, modelling the Python
membership test of one string inside another. -/
def containsSub (needle : List Char) : List Char → Bool
  | [] => needle.isEmpty
  | c :: rest => needle.isPrefixOf (c :: rest) || containsSub needle rest

/-- check_rpc from the source. The POST health-check is an oracle from URL to
optional status code; none models any raised exception (timeout, connection
error). The second component counts the POST requests issued (0 or 1).
The source tests the wss prefix on the raw URL, then membership of the
substring infura in the LOWERCASED WHOLE URL, then posts with timeout 5 and
compares the status to 200, mapping every exception to false. -/
def check_rpc (post : String → Option Nat) (rpc : String) : Bool × Nat :=
  if strStartsWith rpc "wss://" then (false, 0)
  else if containsSub "infura".data (strToLower rpc).data then (true, 0)
  else match post rpc with
    | some st => (decide (st = 200), 1)
    | none => (false, 1)

/-- The remainder after the first occurrence of a separator, or none when the
separator never occurs. -/
def afterSep (sep : List Char) : List Char → Option (List Char)
  | [] => none
  | c :: rest =>
    if sep.isPrefixOf (c :: rest) then some ((c :: rest).drop sep.length)
    else afterSep sep rest

/-- Modelled from the spec wording of claim C3: the host of a URL, the part
after the scheme separator and before the first slash. -/
def urlHost (u : String) : String :=
  match afterSep "://".data u.data with
  | some t => String.mk (t.takeWhile (fun c => c ≠ '/'))
  | none => String.mk (u.data.takeWhile (fun c => c ≠ '/'))

/-- Modelled from the claim C3 wording: the liveness rule with the
infura test applied to the HOST of the URL only (case-insensitively),
everything else as the claim states it. -/
def check_rpc_claimC3 (post : String → Option Nat) (rpc : String) : Bool × Nat :=
  if strStartsWith rpc "wss://" then (false, 0)
  else if containsSub "infura".data (strToLower (urlHost rpc)).data then (true, 0)
  else match post rpc with
    | some st => (decide (st = 200), 1)
    | none => (false, 1)

mutual

/-- Python str()/repr() of a JSON-derived value, used by the chain-id coercion
str(details["chainId"]) . Scalars follow Python exactly; container repr is
approximated (string quoting inside containers is unescaped), which no claim
evaluates since chainId is a scalar in the chain documents. -/
def pyRepr : JVal → String
  | .null => "None"
  | .bool true => "True"
  | .bool false => "False"
  | .num n => toString n
  | .str s => String.mk (Char.ofNat 39 :: s.data) ++ String.mk [Char.ofNat 39]
  | .arr xs => "[" ++ pyReprItems xs ++ "]"
  | .obj kvs => String.mk [Char.ofNat 123] ++ pyReprFields kvs ++ String.mk [Char.ofNat 125]

/-- Comma-joined repr of list elements. -/
def pyReprItems : List JVal → String
  | [] => ""
  | [x] => pyRepr x
  | x :: y :: xs => pyRepr x ++ ", " ++ pyReprItems (y :: xs)

/-- Comma-joined repr of dict items. -/
def pyReprFields : List (String × JVal) → String
  | [] => ""
  | [(k, v)] => pyRepr (.str k) ++ ": " ++ pyRepr v
  | (k, v) :: kv :: kvs => pyRepr (.str k) ++ ": " ++ pyRepr v ++ ", " ++ pyReprFields (kv :: kvs)

end

/-- Python str(): identical to repr except on strings, which pass through. -/
def pyStr : JVal → String
  | .str s => s
  | v => pyRepr v

/-- Effectful filter over a list, keeping the original elements; models a
Python list comprehension whose condition may raise. -/
def filterME (p : JVal → Except PyErr Bool) : List JVal → Except PyErr (List JVal)
  | [] => Except.ok []
  | x :: xs => do
    let b ← p x
    let rest ← filterME p xs
    if b then Except.ok (x :: rest) else Except.ok rest

/-- The condition of the liveness comprehension: check_rpc(rpc) for one list
entry, which calls a str method on the entry first (a non-string entry raises
AttributeError at rpc.startswith). -/
def liveCond (rpcOk : String → Bool) (v : JVal) : Except PyErr Bool := do
  let s ← asStrA v
  Except.ok (rpcOk s)

/-- get_chain_details from the source. Performs one GET on the per-chain file
eip155-{id}.json under CHAINS_URL; a non-200 status yields none. On 200 the
body is parsed (a malformed body raises ValueError from response.json, a
non-object body raises AttributeError at details.get), the rpc list (absent
defaults to the empty list) is filtered through the liveness predicate
(a non-string entry raises AttributeError at rpc.startswith inside check_rpc;
a non-list rpc value raises TypeError at the iteration), the chainId field is
read (raising KeyError when absent) and coerced to its string form. -/
def get_chain_details (get : String → Resp) (rpcOk : String → Bool) (cid : String) :
    Except PyErr (Option JObj) :=
  let resp := get (osJoin CHAINS_URL ("eip155-" ++ cid ++ ".json"))
  if resp.status ≠ 200 then Except.ok none
  else do
    let body ← resp.body.elim (Except.error .valueError) Except.ok
    let o ← asObjA body
    let rpcsV := (jget o "rpc").getD (.arr [])
    let rpcs ← match rpcsV with
      | .arr xs => Except.ok xs
      | _ => Except.error .typeError
    let live ← filterME (liveCond rpcOk) rpcs
    let o2 := jset o "rpc" (.arr live)
    let cidV ← (jget o2 "chainId").elim (Except.error .keyError) Except.ok
    Except.ok (some (jset o2 "chainId" (.str (pyStr cidV))))

/-- The fixed default icon descriptor returned when every source fails. -/
def defaultIconDescriptor : JVal :=
  .obj [("url", .str DEFAULT_ICON_URL), ("format", .str "png")]

/-- Python str.replace, replacing every occurrence: rewrites the ipfs scheme
to the HTTPS gateway. -/
def replaceSub (n0 : Char) (ntail repl : List Char) : List Char → List Char
  | [] => []
  | c :: rest =>
    if (n0 :: ntail).isPrefixOf (c :: rest) then
      repl ++ replaceSub n0 ntail repl (rest.drop ntail.length)
    else c :: replaceSub n0 ntail repl rest
termination_by l => l.length
decreasing_by
  · simp only [List.length_drop, List.length_cons]
    omega
  · simp only [List.length_cons]
    omega

def ipfsFix (s : String) : String :=
  String.mk (replaceSub 'i' "pfs://".data "https://ipfs.io/ipfs/".data s.data)

/-- The nested name-by-name, source-by-source search of get_chain_icon. For
each candidate name the three sources are tried in order (metadata index
json, crypto-icons svg, trustwallet png); the second component counts the GET
requests issued so far starting from the accumulator. The first 200 answer of
the metadata index is subscripted at [0] (an empty array raises IndexError, a
non-array raises the corresponding Python exception) and its url field has
any ipfs prefix rewritten. -/
def tryIconSources (get : String → Resp) : List String → Nat → Except PyErr (Option JVal × Nat)
  | [], n => Except.ok (none, n)
  | name :: names, n =>
    let r1 := get (osJoin ICONS_URL (name ++ ".json"))
    if r1.status = 200 then do
      let b ← r1.body.elim (Except.error .valueError) Except.ok
      let first ← match b with
        | .arr (x :: _) => Except.ok x
        | .arr [] => Except.error .indexError
        | .obj _ => Except.error .keyError
        | .str s => if s = "" then Except.error .indexError else Except.error .typeError
        | _ => Except.error .typeError
      let fo ← match first with
        | .obj o => Except.ok o
        | _ => Except.error .typeError
      let urlv ← (jget fo "url").elim (Except.error .keyError) Except.ok
      let urls ← asStrA urlv
      let fmt ← (jget fo "format").elim (Except.error .keyError) Except.ok
      Except.ok (some (.obj [("url", .str (ipfsFix urls)), ("format", fmt)]), n + 1)
    else
      let r2 := get (osJoin CRYPTO_ICONS_URL (name ++ ".svg"))
      if r2.status = 200 then
        Except.ok (some (.obj [("url", .str r2.url), ("format", .str "svg")]), n + 2)
      else
        let r3 := get (osJoin TRUST_WALLET_ICONS_URL (name ++ "/info/logo.png"))
        if r3.status = 200 then
          Except.ok (some (.obj [("url", .str r3.url), ("format", .str "png")]), n + 3)
        else tryIconSources get names (n + 3)

/-- The search loop followed by the default fallback of get_chain_icon. -/
def iconSearch (get : String → Resp) (names : List String) : Except PyErr (JVal × Nat) := do
  let r ← tryIconSources get names 0
  match r.1 with
  | some icon => Except.ok (icon, r.2)
  | none => Except.ok (defaultIconDescriptor, r.2)

/-- get_chain_icon from the source. existing is the record whose icon field is
consulted first (the source calls .get on it, so a non-object raises
AttributeError); a TRUTHY stored icon short-circuits the search, but the
short-circuit branch prints the first candidate name, so an empty candidate
list raises IndexError there. The second result component counts GET
requests. -/
def get_chain_icon (get : String → Resp) (names : List String) (existing : JVal) :
    Except PyErr (JVal × Nat) := do
  let icOpt ← match existing with
    | .obj o => Except.ok (jget o "icon")
    | _ => Except.error .attributeError
  match icOpt with
  | some ic =>
    if truthy ic then
      match names with
      | [] => Except.error .indexError
      | _ :: _ => Except.ok (ic, 0)
    else iconSearch get names
  | none => iconSearch get names

/-- The merge performed on a confirmed overwrite (main, lines 185-197): the
double-star merge lets the cached record win on every overlapping key, after
which the four refreshed fields are copied from the freshly fetched details;
each of those four is READ from the fetched mapping with plain subscripting,
so a fetched mapping missing one of them raises KeyError. -/
def mergeDetails (details cached : JObj) : Except PyErr JObj := do
  let nd := pymerge details cached
  let rpc ← (jget details "rpc").elim (Except.error .keyError) Except.ok
  let nd := jset nd "rpc" rpc
  let fa ← (jget details "faucets").elim (Except.error .keyError) Except.ok
  let nd := jset nd "faucets" fa
  let ex ← (jget details "explorers").elim (Except.error .keyError) Except.ok
  let nd := jset nd "explorers" ex
  let iu ← (jget details "infoURL").elim (Except.error .keyError) Except.ok
  Except.ok (jset nd "infoURL" iu)

/-- The mainnet flag computation of main (lines 178-180) applied to one
registry record: record.get("mainnet", "false").lower() == "true". A
non-object record raises AttributeError at .get, and a present non-string
value raises AttributeError at .lower. -/
def mainnetFlag (record : JVal) : Except PyErr Bool :=
  match record with
  | .obj o =>
    match (jget o "mainnet").getD (.str "false") with
    | .str s => Except.ok (strToLower s == "true")
    | _ => Except.error .attributeError
  | _ => Except.error .attributeError

/-- One optionally-kept candidate name: the value at the key is appended when
present and truthy (the source guards each append with if details.get(key)). -/
def truthyGet (o : JObj) (k : String) : List JVal :=
  match jget o k with
  | some v => if truthy v then [v] else []
  | none => []

/-- The candidate display names collected for the icon search, in source
order: icon, short_name, shortName, name, chain. -/
def candNames (details : JObj) : List JVal :=
  truthyGet details "icon" ++ truthyGet details "short_name" ++
    truthyGet details "shortName" ++ truthyGet details "name" ++
    truthyGet details "chain"

/-- Environment of one run: the parsed registry as returned by get_contracts
(none models every load failure), the GET and POST oracles, the interactive
answers keyed by chain id, and the cache mapping loaded at start. -/
structure Env where
  contracts : Option JVal
  get : String → Resp
  post : String → Option Nat
  userInput : String → String
  cache0 : JObj

/-- Python int() on a string: optional sign followed by decimal digits;
anything else raises ValueError. Used by the TESTNETS comprehension. -/
def pyInt (s : String) : Except PyErr Int :=
  let digitsVal : List Char → Nat := fun ds =>
    ds.foldl (fun acc c => acc * 10 + (c.toNat - 48)) 0
  match s.data with
  | '-' :: ds =>
    if ds ≠ [] ∧ ds.all Char.isDigit then Except.ok (-(digitsVal ds : Int))
    else Except.error .valueError
  | ds =>
    if ds ≠ [] ∧ ds.all Char.isDigit then Except.ok ((digitsVal ds : Int))
    else Except.error .valueError

/-- The TESTNETS comprehension of main: every chain id whose registry record
has a falsy mainnet field, converted with int(). A non-object record raises
AttributeError at .get and a non-numeric id raises ValueError at int(). The
resulting list is only printed, never consulted. -/
def testnetsList : JObj → Except PyErr (List Int)
  | [] => Except.ok []
  | (k, v) :: rest => do
    let o ← asObjA v
    if !((jget o "mainnet").elim false truthy) then
      let n ← pyInt k
      let ns ← testnetsList rest
      Except.ok (n :: ns)
    else testnetsList rest

/-- get_chain_ids from the source: the comprehension is a no-op passthrough
over contracts.keys(). -/
def get_chain_ids (contracts : JObj) : List String := contracts.map Prod.fst

/-- The tail of one loop iteration after the overwrite prompt: fetch the
details, attach the mainnet flag (the assignment details["mainnet"] = ...
evaluates its right-hand side FIRST and then subscript-assigns, so a None
fetch result raises TypeError at that assignment, before the if-not-details
guard is reached), then either merge into the pre-existing cache entry or
build the candidate names (lowercased duplicates appended; a non-string
truthy name value raises AttributeError at name.lower), resolve the icon and
store the new record. -/
def fetchAndStore (env : Env) (contracts cache : JObj) (cid : String) :
    Except PyErr JObj := do
  let detailsOpt ← get_chain_details env.get (fun r => (check_rpc env.post r).1) cid
  let rec0 ← (jget contracts cid).elim (Except.error .keyError) Except.ok
  let flag ← mainnetFlag rec0
  let d0 ← detailsOpt.elim (Except.error .typeError) Except.ok
  let details := jset d0 "mainnet" (.bool flag)
  if truthy (.obj details) = false then Except.ok cache
  else
    match jget cache cid with
    | some cachedV => do
      let cachedO ← match cachedV with
        | .obj o => Except.ok o
        | _ => Except.error .typeError
      let merged ← mergeDetails details cachedO
      Except.ok (jset cache cid (.obj merged))
    | none => do
      let strs ← (candNames details).mapM asStrA
      let names := strs ++ strs.map strToLower
      let r ← get_chain_icon env.get names ((jget cache cid).getD (.obj []))
      Except.ok (jset cache cid (.obj (jset details "icon" r.1)))

/-- One iteration of the pipeline loop for one chain id: when the id is
already cached, the overwrite prompt is shown and any answer whose lowercase
form differs from the single letter y skips the id, leaving the whole cache
mapping unchanged; otherwise the fetch-and-store tail runs. -/
def processChain (env : Env) (contracts cache : JObj) (cid : String) :
    Except PyErr JObj :=
  if (jget cache cid).isSome && (strToLower (env.userInput cid) != "y") then Except.ok cache
  else fetchAndStore env contracts cache cid

/-- The pipeline loop over the registry chain ids in order. -/
def mainLoop (env : Env) (contracts : JObj) : List String → JObj → Except PyErr JObj
  | [], cache => Except.ok cache
  | cid :: rest, cache => do
    let cache2 ← processChain env contracts cache cid
    mainLoop env contracts rest cache2

/-- main from the source. The result is ok none when the run returns early
without touching the cache file (registry load failure, or a falsy registry),
ok (some final) when the loop completes and the final mapping is written, and
error e when an uncaught exception aborts the run (in which case no write
happens either: the write is the last statement). -/
def mainRun (env : Env) : Except PyErr (Option JObj) :=
  match env.contracts with
  | none => Except.ok none
  | some cv =>
    if !truthy cv then Except.ok none
    else do
      let contracts ← asObjA cv
      let _ ← testnetsList contracts
      let final ← mainLoop env contracts (get_chain_ids contracts) env.cache0
      Except.ok (some final)

/-!
CacheStore (claim C7). The script persists the cache with json.dump(...,
indent tab) and reloads it with json.load; both are Python library code not
present under src. Modelled from the spec: a tab-indented JSON serializer
following the exact layout json.dump produces with indent set to one tab
(item separator a bare comma before each newline, key separator colon-space),
and a recursive-descent JSON parser for loading. JSON numbers are modelled as
integers, as in the rest of the embedding.
-/

/-- Opening brace character, written by code point. -/
def lbraceC : Char := Char.ofNat 123

/-- Closing brace character, written by code point. -/
def rbraceC : Char := Char.ofNat 125

/-- JSON insignificant whitespace. -/
def isWsC (c : Char) : Bool := c = ' ' || c = '\n' || c = '\t' || c = '\r'

/-- Drop leading insignificant whitespace. -/
def skipWs : List Char → List Char
  | [] => []
  | c :: cs => if isWsC c then skipWs cs else c :: cs

/-- Lower-case hexadecimal digit for a value below 16. -/
def hexDigit (n : Nat) : Char :=
  if n < 10 then Char.ofNat (48 + n) else Char.ofNat (87 + n)

/-- Value of one hexadecimal digit character. -/
def hexVal (c : Char) : Option Nat :=
  if 48 ≤ c.toNat ∧ c.toNat ≤ 57 then some (c.toNat - 48)
  else if 97 ≤ c.toNat ∧ c.toNat ≤ 102 then some (c.toNat - 87)
  else if 65 ≤ c.toNat ∧ c.toNat ≤ 70 then some (c.toNat - 55)
  else none

/-- JSON string escaping of one character: quote, backslash and the common
control shorthands, other control characters as a four-digit unicode escape,
everything else literally. -/
def escChar (c : Char) : List Char :=
  if c = Char.ofNat 34 then [Char.ofNat 92, Char.ofNat 34]
  else if c = Char.ofNat 92 then [Char.ofNat 92, Char.ofNat 92]
  else if c = '\n' then [Char.ofNat 92, 'n']
  else if c = '\t' then [Char.ofNat 92, 't']
  else if c = '\r' then [Char.ofNat 92, 'r']
  else if c.toNat < 32 then
    [Char.ofNat 92, 'u', '0', '0', hexDigit (c.toNat / 16), hexDigit (c.toNat % 16)]
  else [c]

/-- JSON string escaping of a character list. -/
def escapeChars : List Char → List Char
  | [] => []
  | c :: cs => escChar c ++ escapeChars cs

/-- Decimal digit character for a value below 10. -/
def digitChar (n : Nat) : Char := Char.ofNat (48 + n)

/-- Decimal digits of a natural number, most significant first. -/
def natChars (n : Nat) : List Char :=
  if n < 10 then [digitChar n]
  else natChars (n / 10) ++ [digitChar (n % 10)]
decreasing_by exact Nat.div_lt_self (by omega) (by omega)

/-- Decimal rendering of an integer. -/
def intChars (n : Int) : List Char :=
  if n < 0 then '-' :: natChars n.natAbs else natChars n.natAbs

/-- The indentation run at one nesting level: that many tabs. -/
def tabsL (n : Nat) : List Char := List.replicate n '\t'

mutual

/-- Tab-indented serialization of a value at a nesting level, following the
layout of json.dump with indent set to one tab. -/
def ser : JVal → Nat → List Char
  | .null, _ => ['n', 'u', 'l', 'l']
  | .bool true, _ => ['t', 'r', 'u', 'e']
  | .bool false, _ => ['f', 'a', 'l', 's', 'e']
  | .num n, _ => intChars n
  | .str s, _ => Char.ofNat 34 :: (escapeChars s.data ++ [Char.ofNat 34])
  | .arr [], _ => ['[', ']']
  | .arr (x :: xs), lvl =>
    '[' :: '\n' :: (serItems (x :: xs) (lvl + 1) ++ '\n' :: (tabsL lvl ++ [']']))
  | .obj [], _ => [lbraceC, rbraceC]
  | .obj (kv :: kvs), lvl =>
    lbraceC :: '\n' :: (serFields (kv :: kvs) (lvl + 1) ++ '\n' :: (tabsL lvl ++ [rbraceC]))

/-- Serialization of the elements of a non-empty array, one per line. -/
def serItems : List JVal → Nat → List Char
  | [], _ => []
  | x :: xs, lvl =>
    tabsL lvl ++ (ser x lvl ++ ((if xs.isEmpty then [] else [',', '\n']) ++ serItems xs lvl))

/-- Serialization of the fields of a non-empty object, one per line. -/
def serFields : List (String × JVal) → Nat → List Char
  | [], _ => []
  | (k, v) :: kvs, lvl =>
    tabsL lvl ++ (Char.ofNat 34 :: (escapeChars k.data ++
      (Char.ofNat 34 :: ':' :: ' ' :: ser v lvl))) ++
      ((if kvs.isEmpty then [] else [',', '\n']) ++ serFields kvs lvl)

end

mutual

/-- Body of a JSON string after the opening quote: the decoded characters and
the remainder after the closing quote. -/
def parseStrAux : List Char → Option (List Char × List Char)
  | [] => none
  | c :: cs =>
    if c = Char.ofNat 34 then some ([], cs)
    else if c = Char.ofNat 92 then parseEsc cs
    else (parseStrAux cs).map (fun r => (c :: r.1, r.2))

/-- Continuation after a backslash inside a JSON string. -/
def parseEsc : List Char → Option (List Char × List Char)
  | [] => none
  | e :: cs2 =>
    if e = Char.ofNat 34 then (parseStrAux cs2).map (fun r => (Char.ofNat 34 :: r.1, r.2))
    else if e = Char.ofNat 92 then (parseStrAux cs2).map (fun r => (Char.ofNat 92 :: r.1, r.2))
    else if e = 'n' then (parseStrAux cs2).map (fun r => ('\n' :: r.1, r.2))
    else if e = 't' then (parseStrAux cs2).map (fun r => ('\t' :: r.1, r.2))
    else if e = 'r' then (parseStrAux cs2).map (fun r => ('\r' :: r.1, r.2))
    else if e = 'u' then
      match cs2 with
      | h1 :: h2 :: h3 :: h4 :: cs3 =>
        match hexVal h1, hexVal h2, hexVal h3, hexVal h4 with
        | some a, some b, some c2, some d =>
          (parseStrAux cs3).map
            (fun r => (Char.ofNat (((a * 16 + b) * 16 + c2) * 16 + d) :: r.1, r.2))
        | _, _, _, _ => none
      | _ => none
    else none

end

/-- Digit run with accumulator; stops at the first non-digit. -/
def parseDigits (acc : Nat) : List Char → Nat × List Char
  | [] => (acc, [])
  | c :: cs => if c.isDigit then parseDigits (acc * 10 + (c.toNat - 48)) cs else (acc, c :: cs)

/-- Integer literal: optional minus sign then a digit run. -/
def parseNum : List Char → Option (Int × List Char)
  | [] => none
  | c :: cs =>
    if c = '-' then
      match cs with
      | [] => none
      | d :: _ =>
        if d.isDigit then
          let r := parseDigits 0 cs
          some (-(r.1 : Int), r.2)
        else none
    else if c.isDigit then
      let r := parseDigits 0 (c :: cs)
      some ((r.1 : Int), r.2)
    else none

mutual

/-- Fuel-bounded JSON value parser. -/
def parseVal : Nat → List Char → Option (JVal × List Char)
  | 0, _ => none
  | fuel + 1, cs =>
    match skipWs cs with
    | [] => none
    | c :: rest =>
      if c = 'n' then
        match rest with
        | 'u' :: 'l' :: 'l' :: r => some (.null, r)
        | _ => none
      else if c = 't' then
        match rest with
        | 'r' :: 'u' :: 'e' :: r => some (.bool true, r)
        | _ => none
      else if c = 'f' then
        match rest with
        | 'a' :: 'l' :: 's' :: 'e' :: r => some (.bool false, r)
        | _ => none
      else if c = Char.ofNat 34 then
        (parseStrAux rest).map (fun r => (JVal.str (String.mk r.1), r.2))
      else if c = '[' then
        match skipWs rest with
        | [] => none
        | c2 :: r2 =>
          if c2 = ']' then some (.arr [], r2)
          else (parseItems fuel rest).map (fun r => (JVal.arr r.1, r.2))
      else if c = lbraceC then
        match skipWs rest with
        | [] => none
        | c2 :: r2 =>
          if c2 = rbraceC then some (.obj [], r2)
          else (parseFields fuel rest).map (fun r => (JVal.obj r.1, r.2))
      else (parseNum (c :: rest)).map (fun r => (JVal.num r.1, r.2))

/-- Fuel-bounded parser for the elements of a non-empty array, after the
opening bracket. -/
def parseItems : Nat → List Char → Option (List JVal × List Char)
  | 0, _ => none
  | fuel + 1, cs => do
    let r0 ← parseVal fuel cs
    match skipWs r0.2 with
    | [] => none
    | c2 :: r2 =>
      if c2 = ',' then (parseItems fuel r2).map (fun r => (r0.1 :: r.1, r.2))
      else if c2 = ']' then some ([r0.1], r2)
      else none

/-- Fuel-bounded parser for the fields of a non-empty object, after the
opening brace. -/
def parseFields : Nat → List Char → Option (List (String × JVal) × List Char)
  | 0, _ => none
  | fuel + 1, cs =>
    match skipWs cs with
    | [] => none
    | c :: rest =>
      if c = Char.ofNat 34 then
        match parseStrAux rest with
        | none => none
        | some (kcs, r1) =>
          match skipWs r1 with
          | [] => none
          | c2 :: r2 =>
            if c2 = ':' then
              match parseVal fuel r2 with
              | none => none
              | some (v, r3) =>
                match skipWs r3 with
                | [] => none
                | c3 :: r4 =>
                  if c3 = ',' then
                    (parseFields fuel r4).map (fun r => ((String.mk kcs, v) :: r.1, r.2))
                  else if c3 = rbraceC then some ([(String.mk kcs, v)], r4)
                  else none
            else none
      else none

end

mutual

/-- Fuel measure of a value for the parser. -/
def jsize : JVal → Nat
  | .arr xs => 1 + sizeItems xs
  | .obj kvs => 1 + sizeFields kvs
  | .null => 1
  | .bool _ => 1
  | .num _ => 1
  | .str _ => 1

/-- Fuel measure of array elements. -/
def sizeItems : List JVal → Nat
  | [] => 0
  | x :: xs => jsize x + 1 + sizeItems xs

/-- Fuel measure of object fields. -/
def sizeFields : List (String × JVal) → Nat
  | [] => 0
  | kv :: kvs => jsize kv.2 + 1 + sizeFields kvs

end

/-- CacheStore.save: the file contents written for a cache mapping,
tab-indented JSON of the top-level object. -/
def saveCache (cache : JObj) : String := String.mk (ser (.obj cache) 0)

/-- CacheStore.load: parse the file contents back into the cache mapping;
none models json.load raising on malformed contents or a non-object top
level. -/
def loadCache (s : String) : Option JObj :=
  match parseVal (s.data.length + 1) s.data with
  | some (.obj kvs, r) => if r.isEmpty then some kvs else none
  | _ => none

/-! Association-list lemmas for the dictionary operations. -/

theorem jget_jset_self (o : JObj) (k : String) (v : JVal) :
    jget (jset o k v) k = some v := by
  induction o with
  | nil => simp [jset, jget]
  | cons kv rest ih =>
    obtain ⟨k1, v1⟩ := kv
    by_cases h : k1 = k
    · simp [jset, jget, h]
    · simp [jset, jget, h, ih]

theorem jget_jset_ne (o : JObj) (k k2 : String) (v : JVal) (h : k2 ≠ k) :
    jget (jset o k v) k2 = jget o k2 := by
  have h2k : ¬(k = k2) := fun hh => h hh.symm
  induction o with
  | nil => simp [jset, jget, h2k]
  | cons kv rest ih =>
    obtain ⟨k1, v1⟩ := kv
    by_cases h1 : k1 = k
    · subst h1
      simp [jset, jget, h2k]
    · by_cases h2 : k1 = k2
      · simp [jset, jget, h1, h2, h, h2k]
      · simp [jset, jget, h1, h2, ih]

theorem jget_append (l1 l2 : JObj) (k : String) :
    jget (l1 ++ l2) k = ((jget l1 k).elim (jget l2 k) some) := by
  induction l1 with
  | nil => simp [jget]
  | cons kv rest ih =>
    obtain ⟨k1, v1⟩ := kv
    by_cases h : k1 = k
    · simp [jget, h]
    · simp [jget, h, ih]

theorem jget_mapped (a b : JObj) (k : String) :
    jget (a.map (fun kv => (kv.1, (jget b kv.1).getD kv.2))) k =
      (jget a k).map (fun v => (jget b k).getD v) := by
  induction a with
  | nil => simp [jget]
  | cons kv rest ih =>
    obtain ⟨k1, v1⟩ := kv
    by_cases h : k1 = k
    · subst h
      simp [jget]
    · simp [jget, h, ih]

theorem jget_filter_key (b : JObj) (p : String × JVal → Bool) (k : String)
    (hp : ∀ v, p (k, v) = true) :
    jget (b.filter p) k = jget b k := by
  induction b with
  | nil => simp [jget]
  | cons kv rest ih =>
    obtain ⟨k1, v1⟩ := kv
    by_cases h : k1 = k
    · subst h
      simp [List.filter, hp v1, jget, ih]
    · cases hpk : p (k1, v1) <;> simp [List.filter, hpk, jget, h, ih]

/-- Lookup in the double-star merge: the second mapping wins on overlapping
keys, keys in only one mapping keep that value. -/
theorem jget_pymerge (a b : JObj) (k : String) :
    jget (pymerge a b) k =
      ((jget a k).elim (jget b k) (fun v => some ((jget b k).getD v))) := by
  unfold pymerge
  rw [jget_append, jget_mapped]
  cases ha : jget a k with
  | some v => simp
  | none =>
    simp only [Option.map_none, Option.elim]
    exact jget_filter_key b _ k (fun v => by simp [ha])

/-- Reduction of a successful bind in the exception monad. -/
@[simp] theorem ok_bind {α β : Type} (a : α) (f : α → Except PyErr β) :
    (Except.ok a >>= f) = f a := rfl

/-- Reduction of a failing bind in the exception monad. -/
@[simp] theorem error_bind {α β : Type} (e : PyErr) (f : α → Except PyErr β) :
    ((Except.error e : Except PyErr α) >>= f) = Except.error e := rfl

/-- When every GET fails, the icon search visits all three sources for every
candidate name (three requests per name) and reports no icon. -/
theorem tryIconSources_fail (get : String → Resp) (hfail : ∀ u, (get u).status ≠ 200) :
    ∀ (names : List String) (n : Nat),
      tryIconSources get names n = Except.ok (none, n + 3 * names.length) := by
  intro names
  induction names with
  | nil => intro n; simp [tryIconSources]
  | cons a as ih =>
    intro n
    have harith : n + 3 + 3 * as.length = n + 3 * (a :: as).length := by
      simp [List.length_cons]
      omega
    rw [tryIconSources, if_neg (hfail (osJoin ICONS_URL (a ++ ".json"))),
      if_neg (hfail (osJoin CRYPTO_ICONS_URL (a ++ ".svg"))),
      if_neg (hfail (osJoin TRUST_WALLET_ICONS_URL (a ++ "/info/logo.png"))), ← harith]
    exact ih (n + 3)

/-- The liveness filter of get_chain_details on a list of string entries keeps
exactly the entries accepted by the predicate. -/
theorem filterME_strs (rpcOk : String → Bool) (ss : List String) :
    filterME (liveCond rpcOk) (ss.map JVal.str) =
      Except.ok ((ss.filter rpcOk).map JVal.str) := by
  induction ss with
  | nil => rfl
  | cons a as ih =>
    have hc : liveCond rpcOk (.str a) = Except.ok (rpcOk a) := rfl
    simp only [List.map_cons, filterME, hc, ok_bind, ih, List.filter]
    cases rpcOk a <;> simp

/-- Claim C1 (code bug witness): with a one-entry registry whose chain-detail
fetch answers non-200 (so get_chain_details returns none), the run aborts
with TypeError at the assignment details["mainnet"] = ..., which executes
before the if-not-details guard; the identifier is NOT skipped and no cache
is written. -/
theorem C1_fetch_failure_raises :
    mainRun { contracts := some (.obj [("1", JVal.obj [("mainnet", JVal.str "true")])]),
              get := fun _ => ⟨404, none, ""⟩,
              post := fun _ => none,
              userInput := fun _ => "n",
              cache0 := [] } = Except.error PyErr.typeError := by
  rfl

/-- Claim C2 (counterexample): merging a fetched mapping that lacks the
faucets key with a cached record that carries one raises KeyError instead of
storing a merged record keeping the cached faucets value. -/
theorem C2_missing_refreshed_key_raises :
    mergeDetails
      [("rpc", JVal.arr []), ("explorers", JVal.arr []), ("infoURL", JVal.str "u")]
      [("faucets", JVal.str "f"), ("a", JVal.num 1)] =
      Except.error PyErr.keyError := by
  rfl

/-- Claim C2 (amended): whenever the freshly fetched mapping contains all four
refreshed keys, the merge succeeds and the stored record takes exactly the
fetched value on those four keys, the cached value on every other key present
in the cache, and the fetched value on keys present only in the fetch. -/
theorem C2_merge_policy (details cached : JObj) (r fa ex iu : JVal)
    (hr : jget details "rpc" = some r)
    (hf : jget details "faucets" = some fa)
    (he : jget details "explorers" = some ex)
    (hi : jget details "infoURL" = some iu) :
    ∃ m, mergeDetails details cached = Except.ok m ∧
      jget m "rpc" = some r ∧
      jget m "faucets" = some fa ∧
      jget m "explorers" = some ex ∧
      jget m "infoURL" = some iu ∧
      ∀ k, k ≠ "rpc" → k ≠ "faucets" → k ≠ "explorers" → k ≠ "infoURL" →
        jget m k = ((jget cached k).elim (jget details k) some) := by
  refine ⟨jset (jset (jset (jset (pymerge details cached) "rpc" r) "faucets" fa)
    "explorers" ex) "infoURL" iu, ?_, ?_, ?_, ?_, ?_, ?_⟩
  · simp [mergeDetails, hr, hf, he, hi, ok_bind]
  · rw [jget_jset_ne _ _ _ _ (by decide), jget_jset_ne _ _ _ _ (by decide),
      jget_jset_ne _ _ _ _ (by decide), jget_jset_self]
  · rw [jget_jset_ne _ _ _ _ (by decide), jget_jset_ne _ _ _ _ (by decide),
      jget_jset_self]
  · rw [jget_jset_ne _ _ _ _ (by decide), jget_jset_self]
  · rw [jget_jset_self]
  · intro k h1 h2 h3 h4
    rw [jget_jset_ne _ _ _ _ h4, jget_jset_ne _ _ _ _ h3, jget_jset_ne _ _ _ _ h2,
      jget_jset_ne _ _ _ _ h1, jget_pymerge]
    cases hd : jget details k <;> cases hc : jget cached k <;> simp

/-- Claim C2 (witness): the merge of the claim example, with the concrete
merged record spelled out and the amended theorem applied at that input. -/
theorem C2_merge_policy_witness :
    mergeDetails
      [("a", JVal.num 9), ("rpc", JVal.arr [JVal.str "new"]),
       ("faucets", JVal.arr [JVal.str "f"]), ("explorers", JVal.arr [JVal.str "e"]),
       ("infoURL", JVal.str "u")]
      [("a", JVal.num 1), ("b", JVal.num 2), ("rpc", JVal.arr [JVal.str "old"])] =
      Except.ok
        [("a", JVal.num 1), ("rpc", JVal.arr [JVal.str "new"]),
         ("faucets", JVal.arr [JVal.str "f"]), ("explorers", JVal.arr [JVal.str "e"]),
         ("infoURL", JVal.str "u"), ("b", JVal.num 2)] ∧
    ∃ m, mergeDetails
        [("a", JVal.num 9), ("rpc", JVal.arr [JVal.str "new"]),
         ("faucets", JVal.arr [JVal.str "f"]), ("explorers", JVal.arr [JVal.str "e"]),
         ("infoURL", JVal.str "u")]
        [("a", JVal.num 1), ("b", JVal.num 2), ("rpc", JVal.arr [JVal.str "old"])] =
        Except.ok m ∧
      jget m "rpc" = some (JVal.arr [JVal.str "new"]) ∧
      jget m "faucets" = some (JVal.arr [JVal.str "f"]) ∧
      jget m "explorers" = some (JVal.arr [JVal.str "e"]) ∧
      jget m "infoURL" = some (JVal.str "u") ∧
      ∀ k, k ≠ "rpc" → k ≠ "faucets" → k ≠ "explorers" → k ≠ "infoURL" →
        jget m k =
          ((jget [("a", JVal.num 1), ("b", JVal.num 2), ("rpc", JVal.arr [JVal.str "old"])] k).elim
            (jget [("a", JVal.num 9), ("rpc", JVal.arr [JVal.str "new"]),
              ("faucets", JVal.arr [JVal.str "f"]), ("explorers", JVal.arr [JVal.str "e"]),
              ("infoURL", JVal.str "u")] k) some) :=
  ⟨by rfl, C2_merge_policy _ _ _ _ _ _ rfl rfl rfl rfl⟩

/-- Claim C3 (counterexample): a URL whose host is free of infura but whose
path contains it. The claim predicts a POST returning 500 and hence the
result false after one request; the source returns true with no request,
because it searches the WHOLE lowercased URL for the substring. -/
theorem C3_infura_in_path :
    check_rpc (fun _ => some 500) "https://node.example.com/infura/abc" = (true, 0) ∧
    check_rpc_claimC3 (fun _ => some 500) "https://node.example.com/infura/abc" = (false, 1) := by
  exact ⟨by rfl, by rfl⟩

/-- Claim C3 (amended): check_rpc applies its rules in priority order and
never propagates an exception, with the infura shortcut keyed on the WHOLE
URL string (not only the host): a wss URL yields false with no POST; else a
URL containing infura case-insensitively yields true with no POST; else one
POST is issued and the result is true exactly for status 200, with an
exception (none) yielding false. -/
theorem C3_priority_rules (post : String → Option Nat) (rpc : String) :
    (strStartsWith rpc "wss://" = true → check_rpc post rpc = (false, 0)) ∧
    (strStartsWith rpc "wss://" = false →
      containsSub "infura".data (strToLower rpc).data = true → check_rpc post rpc = (true, 0)) ∧
    (strStartsWith rpc "wss://" = false → containsSub "infura".data (strToLower rpc).data = false →
      ∀ st, post rpc = some st → check_rpc post rpc = (decide (st = 200), 1)) ∧
    (strStartsWith rpc "wss://" = false → containsSub "infura".data (strToLower rpc).data = false →
      post rpc = none → check_rpc post rpc = (false, 1)) := by
  refine ⟨fun h1 => ?_, fun h1 h2 => ?_, fun h1 h2 st h3 => ?_, fun h1 h2 h3 => ?_⟩ <;>
    simp [check_rpc, h1]
  · simp [h2]
  · simp [h2, h3]
  · simp [h2, h3]

/-- Claim C3 (witness): the four rules exercised at concrete inputs through
the amended theorem. -/
theorem C3_priority_rules_witness :
    check_rpc (fun _ => some 500) "wss://node" = (false, 0) ∧
    check_rpc (fun _ => some 500) "https://mainnet.INFURA.io/v3/k" = (true, 0) ∧
    check_rpc (fun _ => some 500) "https://a.example" = (false, 1) ∧
    check_rpc (fun _ => none) "https://a.example" = (false, 1) :=
  ⟨(C3_priority_rules (fun _ => some 500) "wss://node").1 (by decide),
   (C3_priority_rules (fun _ => some 500) "https://mainnet.INFURA.io/v3/k").2.1
     (by decide) (by decide),
   by
     have := (C3_priority_rules (fun _ => some 500) "https://a.example").2.2.1
       (by decide) (by decide) 500 rfl
     simpa using this,
   (C3_priority_rules (fun _ => none) "https://a.example").2.2.2
     (by decide) (by decide) rfl⟩

/-- Claim C4 (counterexample): a registry record whose mainnet field is the
JSON boolean true makes the flag computation raise AttributeError at .lower,
instead of setting the flag (the claim promises never an error). -/
theorem C4_boolean_mainnet_raises :
    mainnetFlag (.obj [("mainnet", JVal.bool true)]) = Except.error PyErr.attributeError := by
  rfl

/-- Claim C4 (amended): for a registry record whose mainnet field is absent
the flag is false, and for a string-valued mainnet field the flag is true
exactly when the lowercased value equals true; a present non-string value
raises instead of defaulting. -/
theorem C4_mainnet_flag (o : JObj) :
    (jget o "mainnet" = none → mainnetFlag (.obj o) = Except.ok false) ∧
    (∀ s, jget o "mainnet" = some (JVal.str s) →
      mainnetFlag (.obj o) = Except.ok (strToLower s == "true")) := by
  constructor
  · intro h
    simp only [mainnetFlag, h, Option.getD]
    rfl
  · intro s h
    simp [mainnetFlag, h]

/-- Claim C4 (witness): the amended flag computation at a record with an
uppercase string value and at a record with the field absent. -/
theorem C4_mainnet_flag_witness :
    mainnetFlag (.obj [("mainnet", JVal.str "TRUE")]) = Except.ok true ∧
    mainnetFlag (.obj []) = Except.ok false := by
  constructor
  · have := (C4_mainnet_flag [("mainnet", JVal.str "TRUE")]).2 "TRUE" rfl
    simpa using this
  · exact (C4_mainnet_flag []).1 rfl

/-- Claim C5: when the existing record carries no icon and no source answers
200 for any candidate name, get_chain_icon returns exactly the fixed default
descriptor (after three requests per candidate); in particular it never
returns null. -/
theorem C5_default_icon (get : String → Resp) (names : List String) (existing : JObj)
    (hicon : jget existing "icon" = none) (hfail : ∀ u, (get u).status ≠ 200) :
    get_chain_icon get names (.obj existing) =
      Except.ok (defaultIconDescriptor, 3 * names.length) := by
  have hs := tryIconSources_fail get hfail names 0
  simp [get_chain_icon, hicon, iconSearch, hs]

/-- Claim C5 (witness): one candidate name, an empty existing record and an
oracle answering 404 everywhere yield the default descriptor after three
requests. -/
theorem C5_default_icon_witness :
    get_chain_icon (fun _ => ⟨404, none, "u"⟩) ["eth"] (.obj []) =
      Except.ok (defaultIconDescriptor, 3) := by
  have := C5_default_icon (fun _ => ⟨404, none, "u"⟩) ["eth"] [] rfl
    (fun u => by simp)
  simpa using this

/-- Claim C6 (counterexample): with an EMPTY candidate-name list and an
existing record that already carries an icon descriptor, get_chain_icon
raises IndexError (the short-circuit branch prints the first candidate name)
instead of returning the stored descriptor. -/
theorem C6_empty_names_raises :
    get_chain_icon (fun _ => ⟨404, none, ""⟩) []
      (.obj [("icon", JVal.obj [("url", JVal.str "u"), ("format", JVal.str "png")])]) =
      Except.error PyErr.indexError := by
  rfl

/-- Claim C6 (amended): for every existing record carrying a truthy icon
descriptor and every NON-EMPTY candidate-name list, get_chain_icon returns
the stored descriptor unchanged with zero requests, and the result does not
depend on the oracle or on the candidate list (idempotence); the empty
candidate list instead raises IndexError. -/
theorem C6_icon_short_circuit (get get2 : String → Resp) (names names2 : List String)
    (existing : JObj) (ic : JVal) (h : jget existing "icon" = some ic)
    (ht : truthy ic = true) (hn : names ≠ []) (hn2 : names2 ≠ []) :
    get_chain_icon get names (.obj existing) = Except.ok (ic, 0) ∧
    get_chain_icon get2 names2 (.obj existing) = get_chain_icon get names (.obj existing) := by
  cases names with
  | nil => exact absurd rfl hn
  | cons a as =>
    cases names2 with
    | nil => exact absurd rfl hn2
    | cons b bs => constructor <;> simp [get_chain_icon, h, ht]

/-- Claim C6 (witness): a record with a stored svg descriptor, two different
non-empty candidate lists and two different oracles give the identical stored
descriptor with zero requests. -/
theorem C6_icon_short_circuit_witness :
    get_chain_icon (fun _ => ⟨404, none, ""⟩) ["x"]
      (.obj [("icon", JVal.obj [("url", JVal.str "u2"), ("format", JVal.str "svg")])]) =
      Except.ok (JVal.obj [("url", JVal.str "u2"), ("format", JVal.str "svg")], 0) ∧
    get_chain_icon (fun _ => ⟨200, none, ""⟩) ["y", "z"]
      (.obj [("icon", JVal.obj [("url", JVal.str "u2"), ("format", JVal.str "svg")])]) =
      get_chain_icon (fun _ => ⟨404, none, ""⟩) ["x"]
        (.obj [("icon", JVal.obj [("url", JVal.str "u2"), ("format", JVal.str "svg")])]) :=
  C6_icon_short_circuit (fun _ => ⟨404, none, ""⟩) (fun _ => ⟨200, none, ""⟩)
    ["x"] ["y", "z"] _ _ rfl rfl (by simp) (by simp)

/-- Claim C8: whenever registry loading fails (get_contracts yields no
registry), the run returns right after the failure check and the cache file
is not written (the result carries no output mapping; the write is the last
statement of main and is never reached). -/
theorem C8_no_write_on_registry_failure (env : Env) (h : env.contracts = none) :
    mainRun env = Except.ok none := by
  simp [mainRun, h]

/-- Claim C8 (witness): a concrete run whose registry load failed performs no
cache write. -/
theorem C8_no_write_witness :
    mainRun { contracts := none, get := fun _ => ⟨404, none, ""⟩, post := fun _ => none,
              userInput := fun _ => "", cache0 := [("1", JVal.obj [])] } =
      Except.ok none :=
  C8_no_write_on_registry_failure _ rfl

/-- Claim C9: on a 200 response whose parsed body is an object (with a
well-formed rpc field: absent or a list of strings), get_chain_details raises
KeyError when the body lacks the chainId key, while a missing rpc key is
tolerated: with chainId present the fetch succeeds and the stored rpc list
defaults to the empty list. -/
theorem C9_chainid_precondition (get : String → Resp) (rpcOk : String → Bool)
    (cid : String) (o : JObj)
    (hst : (get (osJoin CHAINS_URL ("eip155-" ++ cid ++ ".json"))).status = 200)
    (hbody : (get (osJoin CHAINS_URL ("eip155-" ++ cid ++ ".json"))).body = some (.obj o))
    (hrpc : jget o "rpc" = none ∨
      ∃ ss : List String, jget o "rpc" = some (.arr (ss.map JVal.str))) :
    (jget o "chainId" = none →
      get_chain_details get rpcOk cid = Except.error PyErr.keyError) ∧
    (∀ cv, jget o "chainId" = some cv → jget o "rpc" = none →
      ∃ d, get_chain_details get rpcOk cid = Except.ok (some d) ∧
        jget d "rpc" = some (.arr [])) := by
  constructor
  · intro hcid
    rcases hrpc with hnone | ⟨ss, hss⟩
    · have hfil := filterME_strs rpcOk []
      simp only [get_chain_details, hst, hbody, ne_eq, not_true_eq_false, if_false,
        Option.elim, ok_bind, asObjA, hnone, Option.getD, List.map_nil] at *
      simp [hfil, jget_jset_ne o "rpc" "chainId" _ (by decide), hcid]
    · have hfil := filterME_strs rpcOk ss
      simp only [get_chain_details, hst, hbody, ne_eq, not_true_eq_false, if_false,
        Option.elim, ok_bind, asObjA, hss, Option.getD] at *
      simp [hfil, jget_jset_ne o "rpc" "chainId" _ (by decide), hcid]
  · intro cv hcid hnone
    refine ⟨jset (jset o "rpc" (.arr [])) "chainId" (.str (pyStr cv)), ?_, ?_⟩
    · have hfil := filterME_strs rpcOk []
      simp only [get_chain_details, hst, hbody, ne_eq, not_true_eq_false, if_false,
        Option.elim, ok_bind, asObjA, hnone, Option.getD, List.map_nil] at *
      simp [hfil, jget_jset_ne o "rpc" "chainId" _ (by decide), hcid]
    · rw [jget_jset_ne _ _ _ _ (by decide), jget_jset_self]

/-- Claim C9 (witness): a 200 body without chainId raises KeyError; a 200
body with only chainId succeeds with an empty rpc list. -/
theorem C9_chainid_witness :
    get_chain_details (fun _ => ⟨200, some (.obj []), ""⟩) (fun _ => true) "1" =
      Except.error PyErr.keyError ∧
    ∃ d, get_chain_details (fun _ => ⟨200, some (.obj [("chainId", JVal.num 7)]), ""⟩)
        (fun _ => true) "1" = Except.ok (some d) ∧
      jget d "rpc" = some (.arr []) :=
  ⟨(C9_chainid_precondition (fun _ => ⟨200, some (.obj []), ""⟩) (fun _ => true) "1" []
      rfl rfl (Or.inl rfl)).1 rfl,
   (C9_chainid_precondition (fun _ => ⟨200, some (.obj [("chainId", JVal.num 7)]), ""⟩)
      (fun _ => true) "1" [("chainId", JVal.num 7)] rfl rfl (Or.inl rfl)).2
     (JVal.num 7) rfl rfl⟩

/-- Claim C10: for a chain id already present in the cache, the overwrite
prompt accepts exactly the answers whose lowercase form is the single letter
y: any other answer (yes included) skips the id and leaves the cache mapping
unchanged, while an accepted answer proceeds to the fetch-and-store tail. -/
theorem C10_overwrite_prompt (env : Env) (contracts cache : JObj) (cid : String)
    (hin : (jget cache cid).isSome = true) :
    (strToLower (env.userInput cid) ≠ "y" →
      processChain env contracts cache cid = Except.ok cache) ∧
    (strToLower (env.userInput cid) = "y" →
      processChain env contracts cache cid = fetchAndStore env contracts cache cid) := by
  constructor
  · intro h
    simp [processChain, hin, h]
  · intro h
    simp [processChain, h]

/-- Claim C10 (witness): the answer yes declines (cache unchanged), the
answer Y accepts (the loop body proceeds to the fetch). -/
theorem C10_overwrite_prompt_witness :
    processChain { contracts := none, get := fun _ => ⟨404, none, ""⟩,
                   post := fun _ => none, userInput := fun _ => "yes", cache0 := [] }
        [] [("1", JVal.obj [])] "1" = Except.ok [("1", JVal.obj [])] ∧
    processChain { contracts := none, get := fun _ => ⟨404, none, ""⟩,
                   post := fun _ => none, userInput := fun _ => "Y", cache0 := [] }
        [] [("1", JVal.obj [])] "1" =
      fetchAndStore { contracts := none, get := fun _ => ⟨404, none, ""⟩,
                      post := fun _ => none, userInput := fun _ => "Y", cache0 := [] }
        [] [("1", JVal.obj [])] "1" :=
  ⟨(C10_overwrite_prompt _ [] [("1", JVal.obj [])] "1" rfl).1 (by decide),
   (C10_overwrite_prompt _ [] [("1", JVal.obj [])] "1" rfl).2 (by decide)⟩

/-! Round-trip lemmas for the modelled CacheStore (claim C7). -/

theorem skipWs_cons_not {c : Char} (cs : List Char) (h : isWsC c = false) :
    skipWs (c :: cs) = c :: cs := by
  simp [skipWs, h]

theorem skipWs_append_ws (lead t : List Char) (h : ∀ c ∈ lead, isWsC c = true) :
    skipWs (lead ++ t) = skipWs t := by
  induction lead with
  | nil => rfl
  | cons c cs ih =>
    have hc := h c (by simp)
    simp only [List.cons_append, skipWs, hc, if_true]
    exact ih (fun d hd => h d (by simp [hd]))

theorem allWs_tabsL (n : Nat) : ∀ c ∈ tabsL n, isWsC c = true := by
  intro c hc
  have : c = '\t' := List.eq_of_mem_replicate hc
  subst this
  rfl

theorem hexVal_hexDigit : ∀ x, x < 16 → hexVal (hexDigit x) = some x := by decide

theorem string_mk_data (s : String) : String.mk s.data = s := by
  cases s
  rfl

/-- Unescaping inverts escaping, leaving the remainder after the closing
quote untouched. -/
theorem parseStrAux_escape (l : List Char) (rest : List Char) :
    parseStrAux (escapeChars l ++ (Char.ofNat 34 :: rest)) = some (l, rest) := by
  induction l with
  | nil =>
    simp +decide [escapeChars, parseStrAux]
  | cons c cs ih =>
    by_cases h1 : c = Char.ofNat 34
    · subst h1
      simp +decide [escapeChars, escChar, parseStrAux, parseEsc, ih]
    · by_cases h2 : c = Char.ofNat 92
      · subst h2
        simp +decide [escapeChars, escChar, parseStrAux, parseEsc, ih]
      · by_cases h3 : c = '\n'
        · subst h3
          simp +decide [escapeChars, escChar, parseStrAux, parseEsc, ih]
        · by_cases h4 : c = '\t'
          · subst h4
            simp +decide [escapeChars, escChar, parseStrAux, parseEsc, ih]
          · by_cases h5 : c = '\r'
            · subst h5
              simp +decide [escapeChars, escChar, parseStrAux, parseEsc, ih]
            · by_cases h6 : c.toNat < 32
              · have hhi : c.toNat / 16 < 16 := by omega
                have hlo : c.toNat % 16 < 16 := by omega
                have hcode : c.toNat / 16 * 16 + c.toNat % 16 = c.toNat := by omega
                simp +decide [escapeChars, escChar, h1, h2, h3, h4, h5, h6,
                  parseStrAux, parseEsc, hexVal_hexDigit _ hhi, hexVal_hexDigit _ hlo,
                  show hexVal '0' = some 0 from by decide,
                  ih, hcode, Char.ofNat_toNat]
              · have hlit : escChar c = [c] := by
                  simp [escChar, h1, h2, h3, h4, h5, h6]
                simp only [escapeChars, hlit, List.cons_append, List.nil_append]
                rw [parseStrAux.eq_def]
                simp [h1, h2, ih]

/-- Shape of the decimal rendering: it starts with a digit character. -/
theorem natChars_shape (n : Nat) : ∃ d t, natChars n = digitChar d :: t ∧ d < 10 := by
  induction n using Nat.strong_induction_on with
  | _ n ih =>
    rw [natChars]
    by_cases h : n < 10
    · exact ⟨n, [], by simp [h], h⟩
    · have hdiv : n / 10 < n := Nat.div_lt_self (by omega) (by omega)
      obtain ⟨d, t, ht, hd⟩ := ih (n / 10) hdiv
      exact ⟨d, t ++ [digitChar (n % 10)], by simp [h, ht], hd⟩

/-- Character-level facts about decimal digit characters, used to steer the
parser through serialized numbers. -/
theorem digitChar_facts : ∀ d, d < 10 →
    (digitChar d).isDigit = true ∧ isWsC (digitChar d) = false ∧
    (digitChar d).toNat - 48 = d ∧ digitChar d ≠ 'n' ∧ digitChar d ≠ 't' ∧
    digitChar d ≠ 'f' ∧ digitChar d ≠ Char.ofNat 34 ∧ digitChar d ≠ '[' ∧
    digitChar d ≠ lbraceC ∧ digitChar d ≠ '-' ∧ digitChar d ≠ ']' ∧
    digitChar d ≠ rbraceC := by decide


/-- Consuming the decimal rendering of a number extends the accumulator by
exactly that number and continues in the remainder. -/
theorem parseDigits_natChars (n : Nat) : ∀ (acc : Nat) (rest : List Char),
    parseDigits acc (natChars n ++ rest) =
      parseDigits (acc * 10 ^ (natChars n).length + n) rest := by
  induction n using Nat.strong_induction_on with
  | _ n ih =>
    intro acc rest
    by_cases h : n < 10
    · obtain ⟨hdig, -, hsub, -⟩ := digitChar_facts n h
      rw [natChars, if_pos h]
      simp [parseDigits, hdig, hsub]
    · have hdiv : n / 10 < n := Nat.div_lt_self (by omega) (by omega)
      have hmod : n % 10 < 10 := Nat.mod_lt _ (by omega)
      obtain ⟨hdig, -, hsub, -⟩ := digitChar_facts (n % 10) hmod
      have hdm : n / 10 * 10 + n % 10 = n := by omega
      rw [natChars, if_neg h]
      calc parseDigits acc ((natChars (n / 10) ++ [digitChar (n % 10)]) ++ rest)
          = parseDigits acc (natChars (n / 10) ++ (digitChar (n % 10) :: rest)) := by
            rw [List.append_assoc]
            rfl
        _ = parseDigits (acc * 10 ^ (natChars (n / 10)).length + n / 10)
              (digitChar (n % 10) :: rest) := ih (n / 10) hdiv acc _
        _ = parseDigits ((acc * 10 ^ (natChars (n / 10)).length + n / 10) * 10 + n % 10)
              rest := by
            simp [parseDigits, hdig, hsub]
        _ = parseDigits
              (acc * 10 ^ (natChars (n / 10) ++ [digitChar (n % 10)]).length + n) rest := by
            congr 1
            rw [List.length_append, List.length_singleton, pow_succ,
              Nat.add_mul, Nat.add_assoc, hdm, Nat.mul_assoc]

/-- A digit run stops at once on a digit-free boundary. -/
theorem parseDigits_noDigit (acc : Nat) (rest : List Char)
    (h : ∀ c t, rest = c :: t → c.isDigit = false) :
    parseDigits acc rest = (acc, rest) := by
  cases rest with
  | nil => rfl
  | cons c t => simp [parseDigits, h c t rfl]

/-- The decimal rendering of an integer parses back to that integer whenever
the remainder does not begin with a digit. -/
theorem parseNum_intChars (n : Int) (rest : List Char)
    (hb : ∀ c t, rest = c :: t → c.isDigit = false) :
    parseNum (intChars n ++ rest) = some (n, rest) := by
  have habs : parseDigits 0 (natChars n.natAbs ++ rest) = (n.natAbs, rest) := by
    rw [parseDigits_natChars, Nat.zero_mul, Nat.zero_add]
    exact parseDigits_noDigit _ _ hb
  obtain ⟨d, t, ht, hd⟩ := natChars_shape n.natAbs
  obtain ⟨hdig, -, -, -, -, -, -, -, -, hnotminus, -⟩ := digitChar_facts d hd
  by_cases hneg : n < 0
  · rw [intChars, if_pos hneg, ht]
    simp only [List.cons_append]
    rw [parseNum.eq_def]
    simp only [if_pos rfl, hdig, if_true]
    rw [← List.cons_append, ← ht, habs]
    have habs2 : ((n.natAbs : Int)) = -n := Int.ofNat_natAbs_of_nonpos (by omega)
    rw [habs2]
    simp
  · rw [intChars, if_neg hneg, ht]
    simp only [List.cons_append]
    rw [parseNum.eq_def]
    simp only [if_neg hnotminus, hdig, if_true]
    rw [← List.cons_append, ← ht, habs]
    have habs2 : ((n.natAbs : Int)) = n := Int.natAbs_of_nonneg (by omega)
    rw [habs2]

theorem jsize_pos (v : JVal) : 1 ≤ jsize v := by
  cases v <;> simp [jsize]

theorem skipWs_cons_ws {c : Char} (cs : List Char) (h : isWsC c = true) :
    skipWs (c :: cs) = skipWs cs := by
  simp [skipWs, h]

theorem serHead (v : JVal) (lvl : Nat) :
    ∃ c t, ser v lvl = c :: t ∧ isWsC c = false ∧ c ≠ ']' ∧ c ≠ rbraceC := by
  cases v with
  | null => exact ⟨'n', _, rfl, by decide, by decide, by decide⟩
  | bool b =>
    cases b
    · exact ⟨'f', _, rfl, by decide, by decide, by decide⟩
    · exact ⟨'t', _, rfl, by decide, by decide, by decide⟩
  | num n =>
    by_cases hneg : n < 0
    · exact ⟨'-', natChars n.natAbs, by simp [ser, intChars, hneg], by decide,
        by decide, by decide⟩
    · obtain ⟨d, t, ht, hd⟩ := natChars_shape n.natAbs
      obtain ⟨-, hws, -, -, -, -, -, -, -, -, hr1, hr2⟩ := digitChar_facts d hd
      exact ⟨digitChar d, t, by simp [ser, intChars, hneg, ht], hws, hr1, hr2⟩
  | str s =>
    exact ⟨Char.ofNat 34, escapeChars s.data ++ [Char.ofNat 34], by simp [ser],
      by decide, by decide, by decide⟩
  | arr xs =>
    cases xs with
    | nil => exact ⟨'[', _, rfl, by decide, by decide, by decide⟩
    | cons x xs => exact ⟨'[', _, rfl, by decide, by decide, by decide⟩
  | obj kvs =>
    cases kvs with
    | nil => exact ⟨lbraceC, _, rfl, by decide, by decide, by decide⟩
    | cons kv kvs => exact ⟨lbraceC, _, rfl, by decide, by decide, by decide⟩

/-- Reduction of a successful bind in the option monad. -/
theorem opt_some_bind {α β : Type} (a : α) (f : α → Option β) :
    ((some a : Option α) >>= f) = f a := rfl

/-- Round trip of the modelled CacheStore serialization: with enough fuel the
parser recovers any serialized value, tolerating leading whitespace and an
arbitrary digit-free remainder; the two companion statements handle array
elements and object fields up to the closing bracket. -/
theorem parse_ser (fuel : Nat) :
    (∀ (v : JVal) (lvl : Nat) (lead rest : List Char),
      jsize v ≤ fuel → (∀ c ∈ lead, isWsC c = true) →
      (∀ c t, rest = c :: t → c.isDigit = false) →
      parseVal fuel (lead ++ (ser v lvl ++ rest)) = some (v, rest)) ∧
    (∀ (xs : List JVal) (lvl : Nat) (lead close rest : List Char),
      xs ≠ [] → sizeItems xs ≤ fuel → (∀ c ∈ lead, isWsC c = true) →
      (∀ c ∈ close, isWsC c = true) →
      parseItems fuel (lead ++ (serItems xs lvl ++ ('\n' :: (close ++ (']' :: rest))))) =
        some (xs, rest)) ∧
    (∀ (kvs : List (String × JVal)) (lvl : Nat) (lead close rest : List Char),
      kvs ≠ [] → sizeFields kvs ≤ fuel → (∀ c ∈ lead, isWsC c = true) →
      (∀ c ∈ close, isWsC c = true) →
      parseFields fuel
          (lead ++ (serFields kvs lvl ++ ('\n' :: (close ++ (rbraceC :: rest))))) =
        some (kvs, rest)) := by
  induction fuel with
  | zero =>
    refine ⟨fun v lvl lead rest hsz _ _ => ?_, fun xs lvl lead close rest hne hsz _ _ => ?_,
      fun kvs lvl lead close rest hne hsz _ _ => ?_⟩
    · have := jsize_pos v
      omega
    · cases xs with
      | nil => exact absurd rfl hne
      | cons x xs =>
        have := jsize_pos x
        simp only [sizeItems] at hsz
        omega
    · cases kvs with
      | nil => exact absurd rfl hne
      | cons kv kvs =>
        have := jsize_pos kv.2
        simp only [sizeFields] at hsz
        omega
  | succ fuel ih =>
    obtain ⟨ihV, ihI, ihF⟩ := ih
    refine ⟨?_, ?_, ?_⟩
    · -- values
      intro v lvl lead rest hsz hlead hrest
      cases v with
      | null =>
        have hskip : skipWs (lead ++ (ser .null lvl ++ rest)) =
            'n' :: ('u' :: 'l' :: 'l' :: rest) := by
          rw [skipWs_append_ws _ _ hlead]
          rw [show ser .null lvl ++ rest = 'n' :: ('u' :: 'l' :: 'l' :: rest) from rfl]
          exact skipWs_cons_not _ (by decide)
        rw [parseVal, hskip]
        simp +decide
      | bool b =>
        cases b with
        | false =>
          have hskip : skipWs (lead ++ (ser (.bool false) lvl ++ rest)) =
              'f' :: ('a' :: 'l' :: 's' :: 'e' :: rest) := by
            rw [skipWs_append_ws _ _ hlead]
            rw [show ser (.bool false) lvl ++ rest =
              'f' :: ('a' :: 'l' :: 's' :: 'e' :: rest) from rfl]
            exact skipWs_cons_not _ (by decide)
          rw [parseVal, hskip]
          simp +decide
        | true =>
          have hskip : skipWs (lead ++ (ser (.bool true) lvl ++ rest)) =
              't' :: ('r' :: 'u' :: 'e' :: rest) := by
            rw [skipWs_append_ws _ _ hlead]
            rw [show ser (.bool true) lvl ++ rest =
              't' :: ('r' :: 'u' :: 'e' :: rest) from rfl]
            exact skipWs_cons_not _ (by decide)
          rw [parseVal, hskip]
          simp +decide
      | num n =>
        have hnum := parseNum_intChars n rest hrest
        by_cases hneg : n < 0
        · have hser : ser (.num n) lvl = '-' :: natChars n.natAbs := by
            simp [ser, intChars, hneg]
          have hskip : skipWs (lead ++ (ser (.num n) lvl ++ rest)) =
              '-' :: (natChars n.natAbs ++ rest) := by
            rw [skipWs_append_ws _ _ hlead, hser, List.cons_append]
            exact skipWs_cons_not _ (by decide)
          rw [parseVal, hskip]
          have hfold : ('-' :: (natChars n.natAbs ++ rest)) = intChars n ++ rest := by
            simp [intChars, hneg]
          simp only [if_neg (by decide : ¬(('-' : Char) = 'n')),
            if_neg (by decide : ¬(('-' : Char) = 't')),
            if_neg (by decide : ¬(('-' : Char) = 'f')),
            if_neg (by decide : ¬(('-' : Char) = Char.ofNat 34)),
            if_neg (by decide : ¬(('-' : Char) = '[')),
            if_neg (by decide : ¬(('-' : Char) = lbraceC)), hfold, hnum]
          rfl
        · obtain ⟨d, t, ht, hd⟩ := natChars_shape n.natAbs
          obtain ⟨-, hws, -, hn1, hn2, hn3, hn4, hn5, hn6, -, -, -⟩ := digitChar_facts d hd
          have hser : ser (.num n) lvl = digitChar d :: t := by
            simp [ser, intChars, hneg, ht]
          have hskip : skipWs (lead ++ (ser (.num n) lvl ++ rest)) =
              digitChar d :: (t ++ rest) := by
            rw [skipWs_append_ws _ _ hlead, hser, List.cons_append]
            exact skipWs_cons_not _ hws
          rw [parseVal, hskip]
          have hfold : (digitChar d :: (t ++ rest)) = intChars n ++ rest := by
            simp [intChars, hneg, ht]
          simp only [if_neg hn1, if_neg hn2, if_neg hn3, if_neg hn4, if_neg hn5,
            if_neg hn6, hfold, hnum]
          rfl
      | str s =>
        have hskip : skipWs (lead ++ (ser (.str s) lvl ++ rest)) =
            Char.ofNat 34 :: (escapeChars s.data ++ (Char.ofNat 34 :: rest)) := by
          rw [skipWs_append_ws _ _ hlead]
          rw [show ser (.str s) lvl ++ rest =
            Char.ofNat 34 :: (escapeChars s.data ++ (Char.ofNat 34 :: rest)) from by
              simp [ser]]
          exact skipWs_cons_not _ (by decide)
        rw [parseVal, hskip]
        simp +decide [parseStrAux_escape, string_mk_data]
      | arr xs =>
        cases xs with
        | nil =>
          have hskip : skipWs (lead ++ (ser (.arr []) lvl ++ rest)) =
              '[' :: (']' :: rest) := by
            rw [skipWs_append_ws _ _ hlead]
            rw [show ser (.arr []) lvl ++ rest = '[' :: (']' :: rest) from rfl]
            exact skipWs_cons_not _ (by decide)
          rw [parseVal, hskip]
          have h2 : skipWs (']' :: rest) = ']' :: rest := skipWs_cons_not _ (by decide)
          simp +decide [h2]
        | cons x xs =>
          have hsz2 : sizeItems (x :: xs) ≤ fuel := by
            simp only [jsize] at hsz
            omega
          have hbody : ser (.arr (x :: xs)) lvl ++ rest =
              '[' :: ('\n' :: (serItems (x :: xs) (lvl + 1) ++
                ('\n' :: (tabsL lvl ++ (']' :: rest))))) := by
            simp [ser, List.cons_append, List.append_assoc]
          have hskip : skipWs (lead ++ (ser (.arr (x :: xs)) lvl ++ rest)) =
              '[' :: ('\n' :: (serItems (x :: xs) (lvl + 1) ++
                ('\n' :: (tabsL lvl ++ (']' :: rest))))) := by
            rw [skipWs_append_ws _ _ hlead, hbody]
            exact skipWs_cons_not _ (by decide)
          obtain ⟨c0, t0, hser0, hws0, hnb0, -⟩ := serHead x (lvl + 1)
          have h2 : serItems (x :: xs) (lvl + 1) ++ ('\n' :: (tabsL lvl ++ (']' :: rest))) =
              tabsL (lvl + 1) ++ (ser x (lvl + 1) ++
                ((if xs.isEmpty then [] else [',', '\n']) ++
                  (serItems xs (lvl + 1) ++ ('\n' :: (tabsL lvl ++ (']' :: rest)))))) := by
            rw [serItems]
            simp only [List.cons_append, List.append_assoc]
          have hpeek : skipWs ('\n' :: (serItems (x :: xs) (lvl + 1) ++
              ('\n' :: (tabsL lvl ++ (']' :: rest))))) =
              c0 :: (t0 ++ ((if xs.isEmpty then [] else [',', '\n']) ++
                (serItems xs (lvl + 1) ++ ('\n' :: (tabsL lvl ++ (']' :: rest)))))) := by
            rw [skipWs_cons_ws _ (by decide), h2,
              skipWs_append_ws _ _ (allWs_tabsL (lvl + 1)), hser0, List.cons_append]
            exact skipWs_cons_not _ hws0
          have happ := ihI (x :: xs) (lvl + 1) ['\n'] (tabsL lvl) rest (by simp) hsz2
            (by intro c hc; simp at hc; subst hc; rfl) (allWs_tabsL lvl)
          simp only [List.singleton_append] at happ
          rw [parseVal, hskip]
          simp +decide only [hpeek, hnb0, happ, if_true, if_false]
          rfl
      | obj kvs =>
        cases kvs with
        | nil =>
          have hskip : skipWs (lead ++ (ser (.obj []) lvl ++ rest)) =
              lbraceC :: (rbraceC :: rest) := by
            rw [skipWs_append_ws _ _ hlead]
            rw [show ser (.obj []) lvl ++ rest = lbraceC :: (rbraceC :: rest) from rfl]
            exact skipWs_cons_not _ (by decide)
          rw [parseVal, hskip]
          have h2 : skipWs (rbraceC :: rest) = rbraceC :: rest :=
            skipWs_cons_not _ (by decide)
          simp +decide [h2]
        | cons kv kvs =>
          have hsz2 : sizeFields (kv :: kvs) ≤ fuel := by
            simp only [jsize] at hsz
            omega
          obtain ⟨k, v⟩ := kv
          have hbody : ser (.obj ((k, v) :: kvs)) lvl ++ rest =
              lbraceC :: ('\n' :: (serFields ((k, v) :: kvs) (lvl + 1) ++
                ('\n' :: (tabsL lvl ++ (rbraceC :: rest))))) := by
            simp [ser, List.cons_append, List.append_assoc]
          have hskip : skipWs (lead ++ (ser (.obj ((k, v) :: kvs)) lvl ++ rest)) =
              lbraceC :: ('\n' :: (serFields ((k, v) :: kvs) (lvl + 1) ++
                ('\n' :: (tabsL lvl ++ (rbraceC :: rest))))) := by
            rw [skipWs_append_ws _ _ hlead, hbody]
            exact skipWs_cons_not _ (by decide)
          have h2 : serFields ((k, v) :: kvs) (lvl + 1) ++
              ('\n' :: (tabsL lvl ++ (rbraceC :: rest))) =
              tabsL (lvl + 1) ++ (Char.ofNat 34 :: (escapeChars k.data ++
                (Char.ofNat 34 :: (':' :: (' ' :: (ser v (lvl + 1) ++
                  ((if kvs.isEmpty then [] else [',', '\n']) ++
                    (serFields kvs (lvl + 1) ++
                      ('\n' :: (tabsL lvl ++ (rbraceC :: rest))))))))))) := by
            rw [serFields]
            simp only [List.cons_append, List.append_assoc]
          have hpeek : skipWs ('\n' :: (serFields ((k, v) :: kvs) (lvl + 1) ++
              ('\n' :: (tabsL lvl ++ (rbraceC :: rest))))) =
              Char.ofNat 34 :: (escapeChars k.data ++
                (Char.ofNat 34 :: (':' :: (' ' :: (ser v (lvl + 1) ++
                  ((if kvs.isEmpty then [] else [',', '\n']) ++
                    (serFields kvs (lvl + 1) ++
                      ('\n' :: (tabsL lvl ++ (rbraceC :: rest)))))))))) := by
            rw [skipWs_cons_ws _ (by decide), h2,
              skipWs_append_ws _ _ (allWs_tabsL (lvl + 1))]
            exact skipWs_cons_not _ (by decide)
          have happ := ihF ((k, v) :: kvs) (lvl + 1) ['\n'] (tabsL lvl) rest (by simp)
            hsz2 (by intro c hc; simp at hc; subst hc; rfl) (allWs_tabsL lvl)
          simp only [List.singleton_append] at happ
          rw [parseVal, hskip]
          simp +decide only [hpeek, happ, if_true, if_false]
          rfl
    · -- array elements
      intro xs lvl lead close rest hne hsz hlead hclose
      cases xs with
      | nil => exact absurd rfl hne
      | cons x xs =>
        have hlead2 : ∀ c ∈ lead ++ tabsL lvl, isWsC c = true := by
          intro c hc
          rcases List.mem_append.mp hc with h | h
          · exact hlead c h
          · exact allWs_tabsL lvl c h
        cases xs with
        | nil =>
          have hx : jsize x ≤ fuel := by
            simp only [sizeItems] at hsz
            omega
          have hcs : lead ++ (serItems [x] lvl ++ ('\n' :: (close ++ (']' :: rest)))) =
              (lead ++ tabsL lvl) ++ (ser x lvl ++ ('\n' :: (close ++ (']' :: rest)))) := by
            rw [serItems]
            simp [serItems, List.append_assoc]
          have hv := ihV x lvl (lead ++ tabsL lvl) ('\n' :: (close ++ (']' :: rest)))
            hx hlead2 (by intro c t hct; cases hct; rfl)
          have hpk : skipWs ('\n' :: (close ++ (']' :: rest))) = ']' :: rest := by
            rw [skipWs_cons_ws _ (by decide), skipWs_append_ws _ _ hclose]
            exact skipWs_cons_not _ (by decide)
          rw [parseItems, hcs]
          simp +decide only [hv, hpk, opt_some_bind, if_true, if_false]
        | cons y ys =>
          have hx : jsize x ≤ fuel := by
            simp only [sizeItems] at hsz
            omega
          have hyys : sizeItems (y :: ys) ≤ fuel := by
            have := jsize_pos x
            simp only [sizeItems] at hsz ⊢
            omega
          have hcs : lead ++ (serItems (x :: y :: ys) lvl ++
              ('\n' :: (close ++ (']' :: rest)))) =
              (lead ++ tabsL lvl) ++ (ser x lvl ++ (',' :: ('\n' :: (serItems (y :: ys) lvl ++
                ('\n' :: (close ++ (']' :: rest))))))) := by
            rw [serItems]
            simp [List.append_assoc]
          have hv := ihV x lvl (lead ++ tabsL lvl)
            (',' :: ('\n' :: (serItems (y :: ys) lvl ++ ('\n' :: (close ++ (']' :: rest))))))
            hx hlead2 (by intro c t hct; cases hct; rfl)
          have happ := ihI (y :: ys) lvl ['\n'] close rest (by simp) hyys
            (by intro c hc; simp at hc; subst hc; rfl) hclose
          simp only [List.singleton_append] at happ
          have hpk : skipWs (',' :: ('\n' :: (serItems (y :: ys) lvl ++
              ('\n' :: (close ++ (']' :: rest)))))) =
              ',' :: ('\n' :: (serItems (y :: ys) lvl ++
                ('\n' :: (close ++ (']' :: rest))))) :=
            skipWs_cons_not _ (by decide)
          rw [parseItems, hcs]
          simp +decide only [hv, hpk, happ, opt_some_bind, if_true, if_false]
          rfl
    · -- object fields
      intro kvs lvl lead close rest hne hsz hlead hclose
      cases kvs with
      | nil => exact absurd rfl hne
      | cons kv kvs =>
        obtain ⟨k, v⟩ := kv
        have hlead2 : ∀ c ∈ lead ++ tabsL lvl, isWsC c = true := by
          intro c hc
          rcases List.mem_append.mp hc with h | h
          · exact hlead c h
          · exact allWs_tabsL lvl c h
        cases kvs with
        | nil =>
          have hx : jsize v ≤ fuel := by
            simp only [sizeFields] at hsz
            omega
          have hcs : lead ++ (serFields [(k, v)] lvl ++
              ('\n' :: (close ++ (rbraceC :: rest)))) =
              (lead ++ tabsL lvl) ++ (Char.ofNat 34 :: (escapeChars k.data ++
                (Char.ofNat 34 :: (':' :: (' ' :: (ser v lvl ++
                  ('\n' :: (close ++ (rbraceC :: rest))))))))) := by
            rw [serFields]
            simp [serFields, List.append_assoc]
          have hskip : skipWs (lead ++ (serFields [(k, v)] lvl ++
              ('\n' :: (close ++ (rbraceC :: rest))))) =
              Char.ofNat 34 :: (escapeChars k.data ++
                (Char.ofNat 34 :: (':' :: (' ' :: (ser v lvl ++
                  ('\n' :: (close ++ (rbraceC :: rest)))))))) := by
            rw [hcs, skipWs_append_ws _ _ hlead2]
            exact skipWs_cons_not _ (by decide)
          have hstr := parseStrAux_escape k.data
            (':' :: (' ' :: (ser v lvl ++ ('\n' :: (close ++ (rbraceC :: rest))))))
          have hv := ihV v lvl [' '] ('\n' :: (close ++ (rbraceC :: rest)))
            hx (by intro c hc; simp at hc; subst hc; rfl)
            (by intro c t hct; cases hct; rfl)
          simp only [List.singleton_append] at hv
          have hpk : skipWs ('\n' :: (close ++ (rbraceC :: rest))) = rbraceC :: rest := by
            rw [skipWs_cons_ws _ (by decide), skipWs_append_ws _ _ hclose]
            exact skipWs_cons_not _ (by decide)
          have hpk2 : skipWs (':' :: (' ' :: (ser v lvl ++
              ('\n' :: (close ++ (rbraceC :: rest)))))) =
              ':' :: (' ' :: (ser v lvl ++ ('\n' :: (close ++ (rbraceC :: rest))))) :=
            skipWs_cons_not _ (by decide)
          rw [parseFields, hskip]
          simp +decide only [hstr, hpk, hpk2, hv, if_true, if_false, string_mk_data]
        | cons kv2 kvs2 =>
          have hx : jsize v ≤ fuel := by
            simp only [sizeFields] at hsz
            omega
          have hrest2 : sizeFields (kv2 :: kvs2) ≤ fuel := by
            have := jsize_pos v
            simp only [sizeFields] at hsz ⊢
            omega
          have hcs : lead ++ (serFields ((k, v) :: kv2 :: kvs2) lvl ++
              ('\n' :: (close ++ (rbraceC :: rest)))) =
              (lead ++ tabsL lvl) ++ (Char.ofNat 34 :: (escapeChars k.data ++
                (Char.ofNat 34 :: (':' :: (' ' :: (ser v lvl ++
                  (',' :: ('\n' :: (serFields (kv2 :: kvs2) lvl ++
                    ('\n' :: (close ++ (rbraceC :: rest)))))))))))) := by
            rw [serFields]
            simp [List.append_assoc]
          have hskip : skipWs (lead ++ (serFields ((k, v) :: kv2 :: kvs2) lvl ++
              ('\n' :: (close ++ (rbraceC :: rest))))) =
              Char.ofNat 34 :: (escapeChars k.data ++
                (Char.ofNat 34 :: (':' :: (' ' :: (ser v lvl ++
                  (',' :: ('\n' :: (serFields (kv2 :: kvs2) lvl ++
                    ('\n' :: (close ++ (rbraceC :: rest))))))))))) := by
            rw [hcs, skipWs_append_ws _ _ hlead2]
            exact skipWs_cons_not _ (by decide)
          have hstr := parseStrAux_escape k.data
            (':' :: (' ' :: (ser v lvl ++ (',' :: ('\n' :: (serFields (kv2 :: kvs2) lvl ++
              ('\n' :: (close ++ (rbraceC :: rest)))))))))
          have hv := ihV v lvl [' ']
            (',' :: ('\n' :: (serFields (kv2 :: kvs2) lvl ++
              ('\n' :: (close ++ (rbraceC :: rest))))))
            hx (by intro c hc; simp at hc; subst hc; rfl)
            (by intro c t hct; cases hct; rfl)
          simp only [List.singleton_append] at hv
          have happ := ihF (kv2 :: kvs2) lvl ['\n'] close rest (by simp) hrest2
            (by intro c hc; simp at hc; subst hc; rfl) hclose
          simp only [List.singleton_append] at happ
          have hpk2 : skipWs (':' :: (' ' :: (ser v lvl ++ (',' :: ('\n' ::
              (serFields (kv2 :: kvs2) lvl ++ ('\n' :: (close ++ (rbraceC :: rest))))))))) =
              ':' :: (' ' :: (ser v lvl ++ (',' :: ('\n' ::
                (serFields (kv2 :: kvs2) lvl ++
                  ('\n' :: (close ++ (rbraceC :: rest)))))))) :=
            skipWs_cons_not _ (by decide)
          have hpk3 : skipWs (',' :: ('\n' :: (serFields (kv2 :: kvs2) lvl ++
              ('\n' :: (close ++ (rbraceC :: rest)))))) =
              ',' :: ('\n' :: (serFields (kv2 :: kvs2) lvl ++
                ('\n' :: (close ++ (rbraceC :: rest))))) :=
            skipWs_cons_not _ (by decide)
          rw [parseFields, hskip]
          simp +decide only [hstr, hpk2, hpk3, hv, happ, if_true, if_false, string_mk_data]
          rfl

/-- The serialized form is at least as long as the fuel measure, so the
length-based fuel of loadCache suffices. -/
theorem ser_len (n : Nat) :
    (∀ (v : JVal) (lvl : Nat), jsize v ≤ n → jsize v ≤ (ser v lvl).length) ∧
    (∀ (xs : List JVal) (lvl : Nat), sizeItems xs ≤ n → 1 ≤ lvl →
      sizeItems xs ≤ (serItems xs lvl).length) ∧
    (∀ (kvs : List (String × JVal)) (lvl : Nat), sizeFields kvs ≤ n → 1 ≤ lvl →
      sizeFields kvs ≤ (serFields kvs lvl).length) := by
  induction n with
  | zero =>
    refine ⟨fun v lvl hsz => ?_, fun xs lvl hsz _ => ?_, fun kvs lvl hsz _ => ?_⟩
    · have := jsize_pos v
      omega
    · cases xs with
      | nil => simp [sizeItems, serItems]
      | cons x xs =>
        have := jsize_pos x
        simp only [sizeItems] at hsz
        omega
    · cases kvs with
      | nil => simp [sizeFields, serFields]
      | cons kv kvs =>
        have := jsize_pos kv.2
        simp only [sizeFields] at hsz
        omega
  | succ n ih =>
    obtain ⟨ihV, ihI, ihF⟩ := ih
    refine ⟨fun v lvl hsz => ?_, fun xs lvl hsz hlvl => ?_, fun kvs lvl hsz hlvl => ?_⟩
    · cases v with
      | null => simp [jsize, ser]
      | bool b => cases b <;> simp [jsize, ser]
      | num m =>
        obtain ⟨d, t, ht, -⟩ := natChars_shape m.natAbs
        by_cases hneg : m < 0 <;> simp [jsize, ser, intChars, hneg, ht]
      | str s => simp [jsize, ser]
      | arr xs =>
        cases xs with
        | nil => simp [jsize, ser, sizeItems]
        | cons x xs =>
          have hi : sizeItems (x :: xs) ≤ (serItems (x :: xs) (lvl + 1)).length := by
            refine ihI (x :: xs) (lvl + 1) ?_ (by omega)
            simp only [jsize] at hsz
            omega
          simp only [jsize, ser, List.length_cons, List.length_append, tabsL,
            List.length_replicate] at *
          omega
      | obj kvs =>
        cases kvs with
        | nil => simp [jsize, ser, sizeFields]
        | cons kv kvs =>
          have hi : sizeFields (kv :: kvs) ≤ (serFields (kv :: kvs) (lvl + 1)).length := by
            refine ihF (kv :: kvs) (lvl + 1) ?_ (by omega)
            simp only [jsize] at hsz
            omega
          simp only [jsize, ser, List.length_cons, List.length_append, tabsL,
            List.length_replicate] at *
          omega
    · cases xs with
      | nil => simp [sizeItems, serItems]
      | cons x xs =>
        have hx : jsize x ≤ (ser x lvl).length := by
          refine ihV x lvl ?_
          simp only [sizeItems] at hsz
          omega
        have hrest : sizeItems xs ≤ (serItems xs lvl).length := by
          cases xs with
          | nil => simp [sizeItems, serItems]
          | cons y ys =>
            refine ihI (y :: ys) lvl ?_ hlvl
            have := jsize_pos x
            simp only [sizeItems] at hsz ⊢
            omega
        cases xs with
        | nil =>
          simp only [sizeItems, serItems, List.isEmpty_nil, if_true, List.length_append,
            tabsL, List.length_replicate, List.length_nil] at *
          omega
        | cons y ys =>
          simp only [sizeItems, serItems, List.isEmpty_cons, if_false, List.length_append,
            tabsL, List.length_replicate, List.length_cons] at *
          omega
    · cases kvs with
      | nil => simp [sizeFields, serFields]
      | cons kv kvs =>
        obtain ⟨k, v⟩ := kv
        have hx : jsize v ≤ (ser v lvl).length := by
          refine ihV v lvl ?_
          simp only [sizeFields] at hsz
          omega
        have hrest : sizeFields kvs ≤ (serFields kvs lvl).length := by
          cases kvs with
          | nil => simp [sizeFields, serFields]
          | cons kv2 kvs2 =>
            refine ihF (kv2 :: kvs2) lvl ?_ hlvl
            have := jsize_pos v
            simp only [sizeFields] at hsz ⊢
            omega
        cases kvs with
        | nil =>
          simp only [sizeFields, serFields, List.isEmpty_nil, if_true, List.length_append,
            tabsL, List.length_replicate, List.length_nil, List.length_cons] at *
          omega
        | cons kv2 kvs2 =>
          simp only [sizeFields, serFields, List.isEmpty_cons, if_false, List.length_append,
            tabsL, List.length_replicate, List.length_cons] at *
          omega

/-- Claim C7: saving any cache mapping and loading it back yields the same
mapping. -/
theorem C7_cache_round_trip (cache : JObj) :
    loadCache (saveCache cache) = some cache := by
  have hlen : jsize (.obj cache) ≤ (ser (.obj cache) 0).length :=
    (ser_len (jsize (.obj cache))).1 (.obj cache) 0 (le_refl _)
  have hrt := (parse_ser ((ser (.obj cache) 0).length + 1)).1 (.obj cache) 0 [] []
    (by omega) (by simp) (by intro c t h; exact absurd h (by simp))
  simp only [List.nil_append, List.append_nil] at hrt
  unfold loadCache saveCache
  rw [show (String.mk (ser (.obj cache) 0)).data = ser (.obj cache) 0 from rfl]
  rw [hrt]
  rfl
